import Mathlib

/-!
Shallow embedding of the AI News Aggregator core (`src/app.py`, `src/config.py`)
for checking the natural-language specification.

The SQLite-backed article store is modelled as a list of rows plus the next
AUTOINCREMENT id.  Stored column values are dynamically typed (`SVal`), Python
values moving through the enrichment pipeline are modelled by `JsonVal`.
Floating-point numbers only ever arise from decimal literals in the service's
JSON reply, so they are modelled exactly as scaled decimals `m / 10 ^ e`.
Exceptions (sqlite3 errors, AttributeError, json failures) are modelled with
`Option`: `none` is an uncaught raise / explicit `None` result.
-/

namespace News

/-- A SQLite storage-class value as held in a column of the `articles` table.
`real m e` denotes the number `m / 10 ^ e`. -/
inductive SVal where
  | null
  | int (i : Int)
  | real (m : Int) (e : Nat)
  | text (s : String)
deriving DecidableEq, Repr

/-- A Python value produced by `json.loads` (and fed to `update_article`).
`float m e` denotes the number `m / 10 ^ e`. -/
inductive JsonVal where
  | null
  | bool (b : Bool)
  | int (i : Int)
  | float (m : Int) (e : Nat)
  | str (s : String)
  | arr (xs : List JsonVal)
  | obj (kvs : List (String × JsonVal))

/-- Python truthiness of a parsed JSON value (`if result:` in `process_unanalyzed`). -/
def pyTruthy : JsonVal → Bool
  | .null => false
  | .bool b => b
  | .int i => i != 0
  | .float m _ => m != 0
  | .str s => s != ""
  | .arr xs => !xs.isEmpty
  | .obj kvs => !kvs.isEmpty

/-- `dict.get` on the object produced by `json.loads`: for duplicate keys the
last binding wins, exactly as repeated keys overwrite in a Python dict. -/
def jget (kvs : List (String × JsonVal)) (k : String) : Option JsonVal :=
  match kvs with
  | [] => none
  | (k', v) :: rest =>
    match jget rest k with
    | some r => some r
    | none => if k' = k then some v else none

-- ============ json.dumps (Python default separators, ensure_ascii) ============

/-- Hex digit for `\uXXXX` escapes. -/
def hexDigit (n : Nat) : Char :=
  if n < 10 then Char.ofNat (48 + n) else Char.ofNat (97 + (n - 10))

/-- Escape of one character inside a JSON string literal, following
Python `json.dumps` with its default `ensure_ascii=True`. -/
def escapeChar (c : Char) : List Char :=
  if c = '"' then ['\\', '"']
  else if c = '\\' then ['\\', '\\']
  else if c = '\n' then ['\\', 'n']
  else if c = '\r' then ['\\', 'r']
  else if c = '\t' then ['\\', 't']
  else if c.toNat = 8 then ['\\', 'b']
  else if c.toNat = 12 then ['\\', 'f']
  else if c.toNat < 0x20 ∨ 0x7f ≤ c.toNat then
    -- \uXXXX (for brevity code points above 0xffff are not split into
    -- surrogate pairs; no claim exercises them)
    ['\\', 'u', hexDigit (c.toNat / 4096 % 16), hexDigit (c.toNat / 256 % 16),
     hexDigit (c.toNat / 16 % 16), hexDigit (c.toNat % 16)]
  else [c]

/-- Escape every character of a JSON string body. -/
def escapeList : List Char → List Char
  | [] => []
  | c :: cs => escapeChar c ++ escapeList cs

/-- A JSON string literal (with quotes), as a character list. -/
def encStrChars (s : String) : List Char :=
  '"' :: escapeList s.data ++ ['"']

/-- Decimal rendering of the float `m / 10 ^ e` for `json.dumps`. -/
def floatRepr (m : Int) (e : Nat) : String :=
  if e = 0 then toString m ++ ".0"
  else
    let sign := if m < 0 then "-" else ""
    let a := m.natAbs
    let ip := a / 10 ^ e
    let fp := a % 10 ^ e
    let fpStr := toString fp
    let pad := String.mk (List.replicate (e - fpStr.length) '0')
    sign ++ toString ip ++ "." ++ pad ++ fpStr

mutual

/-- `json.dumps` of a value, at the character level
(Python's default separators are `", "` and `": "`). -/
def dumpsChars : JsonVal → List Char
  | .null => "null".data
  | .bool true => "true".data
  | .bool false => "false".data
  | .int i => (toString i).data
  | .float m e => (floatRepr m e).data
  | .str s => encStrChars s
  | .arr xs => '[' :: dumpsArrChars xs ++ [']']
  | .obj kvs => '{' :: dumpsObjChars kvs ++ ['}']

/-- Comma-separated dump of array items. -/
def dumpsArrChars : List JsonVal → List Char
  | [] => []
  | [x] => dumpsChars x
  | x :: y :: rest => dumpsChars x ++ ',' :: ' ' :: dumpsArrChars (y :: rest)

/-- Comma-separated dump of object members. -/
def dumpsObjChars : List (String × JsonVal) → List Char
  | [] => []
  | [(k, v)] => encStrChars k ++ ':' :: ' ' :: dumpsChars v
  | (k, v) :: p :: rest =>
    encStrChars k ++ ':' :: ' ' :: dumpsChars v ++ ',' :: ' ' :: dumpsObjChars (p :: rest)

end

/-- `json.dumps` as a string. -/
def dumps (v : JsonVal) : String := String.mk (dumpsChars v)

-- ============ json.loads ============

/-- JSON insignificant whitespace. -/
def isJsonWs (c : Char) : Bool :=
  c = ' ' ∨ c = '\t' ∨ c = '\n' ∨ c = '\r'

/-- Skip insignificant whitespace. -/
def skipWs (cs : List Char) : List Char := cs.dropWhile isJsonWs

/-- Value of a hex digit, if any. -/
def hexVal (c : Char) : Option Nat :=
  if '0' ≤ c ∧ c ≤ '9' then some (c.toNat - 48)
  else if 'a' ≤ c ∧ c ≤ 'f' then some (c.toNat - 87)
  else if 'A' ≤ c ∧ c ≤ 'F' then some (c.toNat - 55)
  else none

/-- The single-character JSON escapes (`\" \\ \/ \b \f \n \r \t`). -/
def escChar (e : Char) : Option Char :=
  if e = '"' then some '"'
  else if e = '\\' then some '\\'
  else if e = '/' then some '/'
  else if e = 'b' then some (Char.ofNat 8)
  else if e = 'f' then some (Char.ofNat 12)
  else if e = 'n' then some '\n'
  else if e = 'r' then some '\r'
  else if e = 't' then some '\t'
  else none

/-- Parse the body of a JSON string literal (the opening quote already
consumed); returns the decoded characters and the input after the closing
quote.  Follows the strict `json.loads` rules: raw control characters are
rejected, the escapes are exactly those of JSON. -/
def parseStringBody : List Char → Option (List Char × List Char)
  | [] => none
  | c :: rest =>
    if c = '"' then some ([], rest)
    else if c = '\\' then
      match rest with
      | 'u' :: h1 :: h2 :: h3 :: h4 :: r =>
        (match hexVal h1, hexVal h2, hexVal h3, hexVal h4 with
         | some a, some b, some cc, some d =>
           (parseStringBody r).map
             (fun p => (Char.ofNat (a * 4096 + b * 256 + cc * 16 + d) :: p.1, p.2))
         | _, _, _, _ => none)
      | e :: rest2 =>
        (match escChar e with
         | some d => (parseStringBody rest2).map (fun p => (d :: p.1, p.2))
         | none => none)
      | [] => none
    else if c.toNat < 0x20 then none
    else (parseStringBody rest).map (fun p => (c :: p.1, p.2))

/-- Digits of a decimal run and the rest of the input. -/
def digitsPrefix (cs : List Char) : List Char × List Char :=
  (cs.takeWhile Char.isDigit, cs.dropWhile Char.isDigit)

/-- Numeric value of a digit run. -/
def digitsToNat (ds : List Char) : Nat :=
  ds.foldl (fun n c => n * 10 + (c.toNat - 48)) 0

/-- Parse a JSON number (strict grammar: optional minus, integer part without
leading zeros, optional fraction, optional exponent).  Yields `.int` when the
literal has neither fraction nor exponent, `.float` otherwise, exactly as
`json.loads` yields Python `int` vs `float`. -/
def parseNumber (cs : List Char) : Option (JsonVal × List Char) :=
  let (neg, cs1) : Bool × List Char :=
    match cs with
    | '-' :: rest => (true, rest)
    | _ => (false, cs)
  let (ip, cs2) := digitsPrefix cs1
  if ip = [] then none
  else if ip.head? = some '0' ∧ ip.length > 1 then none
  else
    let (fp, cs3) : List Char × List Char :=
      match cs2 with
      | '.' :: rest => digitsPrefix rest
      | _ => ([], cs2)
    let hasFrac : Bool := match cs2 with | '.' :: _ => true | _ => false
    if hasFrac ∧ fp = [] then none
    else
      let afterFrac := if hasFrac then cs3 else cs2
      let (expPart, cs4) : Option (Bool × List Char) × List Char :=
        match afterFrac with
        | 'e' :: '-' :: rest => (some (true, (digitsPrefix rest).1), (digitsPrefix rest).2)
        | 'e' :: '+' :: rest => (some (false, (digitsPrefix rest).1), (digitsPrefix rest).2)
        | 'e' :: rest => (some (false, (digitsPrefix rest).1), (digitsPrefix rest).2)
        | 'E' :: '-' :: rest => (some (true, (digitsPrefix rest).1), (digitsPrefix rest).2)
        | 'E' :: '+' :: rest => (some (false, (digitsPrefix rest).1), (digitsPrefix rest).2)
        | 'E' :: rest => (some (false, (digitsPrefix rest).1), (digitsPrefix rest).2)
        | _ => (none, afterFrac)
      match expPart with
      | some (_, []) => none
      | some (expNeg, eds) =>
        let mantissa : Int :=
          (if neg then -1 else 1) * (digitsToNat ip * 10 ^ fp.length + digitsToNat fp)
        let expv := digitsToNat eds
        if expNeg then some (.float mantissa (fp.length + expv), cs4)
        else some (.float (mantissa * 10 ^ expv) fp.length, cs4)
      | none =>
        if hasFrac then
          some (.float ((if neg then -1 else 1) *
            (digitsToNat ip * 10 ^ fp.length + digitsToNat fp)) fp.length, cs3)
        else
          some (.int ((if neg then -1 else 1) * digitsToNat ip), cs2)

mutual

/-- Recursive-descent JSON value parser; the fuel bounds recursion depth and
is decremented on every nested call. -/
def parseVal : Nat → List Char → Option (JsonVal × List Char)
  | 0, _ => none
  | fuel + 1, cs =>
    match skipWs cs with
    | '"' :: rest => (parseStringBody rest).map (fun p => (.str (String.mk p.1), p.2))
    | '[' :: rest =>
      (match skipWs rest with
       | ']' :: r2 => some (.arr [], r2)
       | _ => (parseItems fuel (skipWs rest)).map (fun p => (.arr p.1, p.2)))
    | '{' :: rest =>
      (match skipWs rest with
       | '}' :: r2 => some (.obj [], r2)
       | _ => (parseMembers fuel (skipWs rest)).map (fun p => (.obj p.1, p.2)))
    | 't' :: 'r' :: 'u' :: 'e' :: rest => some (.bool true, rest)
    | 'f' :: 'a' :: 'l' :: 's' :: 'e' :: rest => some (.bool false, rest)
    | 'n' :: 'u' :: 'l' :: 'l' :: rest => some (.null, rest)
    | c :: rest =>
      if c = '-' ∨ c.isDigit then parseNumber (c :: rest) else none
    | [] => none

/-- Parse the non-empty item list of a JSON array (input positioned at the
first item); consumes the closing bracket. -/
def parseItems : Nat → List Char → Option (List JsonVal × List Char)
  | 0, _ => none
  | fuel + 1, cs =>
    match parseVal fuel cs with
    | none => none
    | some (v, rest) =>
      match skipWs rest with
      | ',' :: r2 => (parseItems fuel r2).map (fun p => (v :: p.1, p.2))
      | ']' :: r2 => some ([v], r2)
      | _ => none

/-- Parse the non-empty member list of a JSON object (input positioned at the
first key); consumes the closing brace. -/
def parseMembers : Nat → List Char → Option (List (String × JsonVal) × List Char)
  | 0, _ => none
  | fuel + 1, cs =>
    match skipWs cs with
    | '"' :: kr =>
      (match parseStringBody kr with
       | none => none
       | some (kcs, r1) =>
         match skipWs r1 with
         | ':' :: r2 =>
           (match parseVal fuel r2 with
            | none => none
            | some (v, r3) =>
              match skipWs r3 with
              | ',' :: r4 => (parseMembers fuel r4).map (fun p => ((String.mk kcs, v) :: p.1, p.2))
              | '}' :: r4 => some ([(String.mk kcs, v)], r4)
              | _ => none)
         | _ => none)
    | _ => none

end

/-- `json.loads`: parse a complete JSON document, requiring only whitespace
after the value. -/
def json_loads (s : String) : Option JsonVal :=
  match parseVal (s.data.length + 2) s.data with
  | some (v, rest) => if skipWs rest = [] then some v else none
  | none => none

-- ============ SQLite value ordering (for ORDER BY ... DESC) ============

/-- Code-point-wise (equivalently, UTF-8 byte-wise, i.e. SQLite BINARY
collation) lexicographic comparison of text. -/
def charListLe : List Char → List Char → Bool
  | [], _ => true
  | _ :: _, [] => false
  | a :: as, b :: bs =>
    if a.toNat < b.toNat then true
    else if b.toNat < a.toNat then false
    else charListLe as bs

/-- SQLite's cross-type value ordering: NULL < numeric values (compared
numerically across INTEGER/REAL) < TEXT (BINARY collation). -/
def SVal.sqle : SVal → SVal → Bool
  | .null, _ => true
  | _, .null => false
  | .int a, .int b => a ≤ b
  | .int a, .real m e => a * 10 ^ e ≤ m
  | .real m e, .int b => m ≤ b * 10 ^ e
  | .real m e, .real m' e' => m * 10 ^ e' ≤ m' * 10 ^ e
  | .int _, .text _ => true
  | .real _ _, .text _ => true
  | .text _, .int _ => false
  | .text _, .real _ _ => false
  | .text s, .text t => charListLe s.data t.data

-- ============ Article store (the `articles` table) ============

/-- One row of the `articles` table.  `id` is INTEGER PRIMARY KEY
AUTOINCREMENT; every other column is dynamically typed. -/
structure Article where
  id : Nat
  title : SVal
  url : SVal
  source : SVal
  published_date : SVal
  fetched_date : SVal
  content : SVal
  summary : SVal
  category : SVal
  sentiment : SVal
  sentiment_score : SVal
  bubble_indicators : SVal
  is_read : SVal
deriving DecidableEq, Repr

/-- The database: rows plus the next AUTOINCREMENT id (starts at 1). -/
structure Store where
  rows : List Article
  nextId : Nat
deriving DecidableEq, Repr

/-- The article payload accepted by `add_article` (built by `fetch_feed`);
`none` models a Python `None` / missing value. -/
structure NewArticle where
  title : Option String
  url : Option String
  source : Option String
  published_date : Option String
  content : Option String
deriving DecidableEq, Repr

/-- A nullable text parameter as bound into an SQL statement. -/
def optText : Option String → SVal
  | none => .null
  | some s => .text s

/-- The row INSERTed by `add_article` (analysis fields NULL, `is_read` 0). -/
def insertedRow (s : Store) (a : NewArticle) (now : String) : Article :=
  { id := s.nextId,
    title := optText a.title,
    url := optText a.url,
    source := optText a.source,
    published_date := optText a.published_date,
    fetched_date := .text now,
    content := optText a.content,
    summary := .null,
    category := .null,
    sentiment := .null,
    sentiment_score := .null,
    bubble_indicators := .null,
    is_read := .int 0 }

/-- `add_article`: INSERT the payload; `sqlite3.IntegrityError` (NOT NULL
violation on title/url/source, or UNIQUE violation on url) is caught and
reported as the `None` sentinel with the store unchanged. -/
def add_article (s : Store) (a : NewArticle) (now : String) : Option Nat × Store :=
  if a.title = none ∨ a.url = none ∨ a.source = none then (none, s)
  else if s.rows.any (fun r => r.url = optText a.url) then (none, s)
  else
    (some s.nextId,
     { rows := s.rows ++ [insertedRow s a now], nextId := s.nextId + 1 })

/-- `get_article`: SELECT by id, `none` when absent. -/
def get_article (s : Store) (i : Nat) : Option Article :=
  s.rows.find? (fun r => r.id = i)

/-- The updatable columns of the `articles` table.  The real code
interpolates the key into the SQL text, so any of the twelve non-id columns
works; a key that is not a column makes the UPDATE statement fail to compile
(`sqlite3.OperationalError`).  (`SET id = ...` is also accepted by SQLite but
nothing in the program ever updates `id`, so the model leaves it out of the
updatable set.) -/
inductive Col where
  | title | url | source | published_date | fetched_date | content
  | summary | category | sentiment | sentiment_score | bubble_indicators | is_read
deriving DecidableEq, Repr

/-- Resolve a field-map key against the table's column names. -/
def colOf (k : String) : Option Col :=
  if k = "title" then some .title
  else if k = "url" then some .url
  else if k = "source" then some .source
  else if k = "published_date" then some .published_date
  else if k = "fetched_date" then some .fetched_date
  else if k = "content" then some .content
  else if k = "summary" then some .summary
  else if k = "category" then some .category
  else if k = "sentiment" then some .sentiment
  else if k = "sentiment_score" then some .sentiment_score
  else if k = "bubble_indicators" then some .bubble_indicators
  else if k = "is_read" then some .is_read
  else none

/-- Does the key name an updatable column? -/
def validCol (k : String) : Bool := (colOf k).isSome

/-- Assign one column of a row. -/
def setCol (c : Col) (v : SVal) (r : Article) : Article :=
  match c with
  | .title => { r with title := v }
  | .url => { r with url := v }
  | .source => { r with source := v }
  | .published_date => { r with published_date := v }
  | .fetched_date => { r with fetched_date := v }
  | .content => { r with content := v }
  | .summary => { r with summary := v }
  | .category => { r with category := v }
  | .sentiment => { r with sentiment := v }
  | .sentiment_score => { r with sentiment_score := v }
  | .bubble_indicators => { r with bubble_indicators := v }
  | .is_read => { r with is_read := v }

/-- How `sqlite3` binds a Python value as a statement parameter; `none` is
`sqlite3.InterfaceError` (unsupported type, e.g. a dict). -/
def toSqlite : JsonVal → Option SVal
  | .null => some .null
  | .bool b => some (.int (if b then 1 else 0))
  | .int i => some (.int i)
  | .float m e => some (.real m e)
  | .str s => some (.text s)
  | .arr _ => none
  | .obj _ => none

/-- `update_article`'s per-value conversion: lists become JSON strings. -/
def convUpdateVal : JsonVal → JsonVal
  | .arr xs => .str (dumps (.arr xs))
  | v => v

/-- One iteration of `update_article`'s loop:
`UPDATE articles SET {key} = ? WHERE id = ?`.  An unknown column or an
unbindable value raises (`none`). -/
def updateKey (s : Store) (i : Nat) (k : String) (v : JsonVal) : Option Store :=
  match colOf k with
  | some c =>
    (match toSqlite (convUpdateVal v) with
     | some sv =>
       some { s with rows := s.rows.map (fun r => if r.id = i then setCol c sv r else r) }
     | none => none)
  | none => none

/-- `update_article`: apply each field assignment in order; any raised
error aborts the call and (the connection being closed uncommitted) rolls
the whole transaction back, modelled as `none`. -/
def update_article (s : Store) (i : Nat) (updates : List (String × JsonVal)) : Option Store :=
  updates.foldlM (fun st kv => updateKey st i kv.1 kv.2) s

/-- The `update_article(article_id, {'is_read': 1})` call of the detail
route. -/
def mark_read (s : Store) (i : Nat) : Option Store :=
  update_article s i [("is_read", .int 1)]

/-- Descending order on a column, as produced by `ORDER BY key DESC`. -/
def byDesc (key : Article → SVal) (a b : Article) : Prop :=
  SVal.sqle (key b) (key a) = true

instance (key : Article → SVal) : DecidableRel (byDesc key) :=
  fun _ _ => inferInstanceAs (Decidable (_ = true))

/-- `get_unprocessed_articles`:
`SELECT * FROM articles WHERE summary IS NULL ORDER BY fetched_date DESC LIMIT ?`. -/
def get_unprocessed_articles (s : Store) (limit : Nat) : List Article :=
  (((s.rows.filter (fun r => r.summary = SVal.null)).insertionSort
      (byDesc (fun r => r.fetched_date))).take limit)

-- ============ Feed fetching ============

/-- `MAX_ARTICLES_PER_FEED` from `config.py`. -/
def MAX_ARTICLES_PER_FEED : Nat := 15

/-- The compiled-in `ANTHROPIC_API_KEY` default from `config.py`. -/
def ANTHROPIC_API_KEY : String := ""

/-- Is this `<` the start of markup for `html.parser`?  A `<` is literal
text unless followed by a letter (tag), `/` (end tag), `!` (declaration or
comment) or `?` (processing instruction). -/
def isTagOpen : List Char → Bool
  | c :: _ => c.isAlpha ∨ c = '/' ∨ c = '!' ∨ c = '?'
  | [] => false

/-- Split an HTML fragment into its text nodes: characters inside `<...>`
markup are dropped, text between markup forms one node per gap.  `inTag`
says whether the scan is inside markup; `acc` holds the current text node
reversed. -/
def htmlSegsAux : List Char → Bool → List Char → List (List Char)
  | [], _, acc => [acc.reverse]
  | c :: cs, true, acc =>
    if c = '>' then htmlSegsAux cs false acc else htmlSegsAux cs true acc
  | c :: cs, false, acc =>
    if c = '<' ∧ isTagOpen cs then acc.reverse :: htmlSegsAux cs true []
    else htmlSegsAux cs false (c :: acc)

/-- Python `str.strip`'s default whitespace characters (ASCII part). -/
def isPyWs (c : Char) : Bool :=
  c = ' ' ∨ c = '\t' ∨ c = '\n' ∨ c = '\r' ∨ c.toNat = 11 ∨ c.toNat = 12

/-- Python `str.strip` on a character list. -/
def trimChars (l : List Char) : List Char :=
  ((l.dropWhile isPyWs).reverse.dropWhile isPyWs).reverse

/-- Join text nodes with the single-space separator of
`get_text(separator=' ')`. -/
def joinSegs : List (List Char) → List Char
  | [] => []
  | [x] => x
  | x :: y :: rest => x ++ ' ' :: joinSegs (y :: rest)

/-- The content sanitizer:
`BeautifulSoup(content, 'html.parser').get_text(separator=' ', strip=True)[:3000]`
— every text node is stripped of surrounding whitespace, whitespace-only
nodes are dropped, the nodes are joined with a single space, and the result
is truncated to 3000 characters. -/
def clean_html (raw : String) : String :=
  String.mk ((joinSegs
    (((htmlSegsAux raw.data false []).map trimChars).filter (fun l => l ≠ []))).take 3000)

/-- One raw entry of a parsed feed, with just the attributes `fetch_feed`
reads.  The `published_parsed`/`updated_parsed` struct-times are modelled as
their already-rendered ISO-8601 strings (the `datetime(...).isoformat()`
rendering is irrelevant to every claim); `none` is a missing attribute, and
for `content_value` also an empty `entry.content` list. -/
structure FeedEntry where
  title : Option String
  link : Option String
  published : Option String
  updated : Option String
  content_value : Option String
  summary : Option String
deriving DecidableEq, Repr

/-- `fetch_feed`'s normalization of one entry into an article payload. -/
def fetch_entry (feedName : String) (now : String) (e : FeedEntry) : NewArticle :=
  let published : Option String :=
    match e.published with
    | some p => some p
    | none => e.updated
  let content0 : String :=
    match e.content_value with
    | some v => v
    | none => match e.summary with | some s => s | none => ""
  let content := if content0 = "" then content0 else clean_html content0
  { title := some (e.title.getD "Untitled"),
    url := some (e.link.getD ""),
    source := some feedName,
    published_date := some (published.getD now),
    content := some content }

/-- `fetch_feed`: normalize up to `MAX_ARTICLES_PER_FEED` entries.  (The
network/parse-failure path returns `[]`, which the caller models by passing
an empty entry list.) -/
def fetch_feed (feedName : String) (now : String) (entries : List FeedEntry) : List NewArticle :=
  (entries.take MAX_ARTICLES_PER_FEED).map (fetch_entry feedName now)

/-- The loop of `refresh_feeds`: insert each fetched article whose url is
truthy (present and non-empty) and count the genuinely new ones (`add_article`
returned a truthy id). -/
def refresh_loop (s : Store) (n : Nat) (now : String) : List NewArticle → Nat × Store
  | [] => (n, s)
  | a :: rest =>
    if a.url.getD "" ≠ "" then
      match add_article s a now with
      | (some i, s') => refresh_loop s' (if i = 0 then n else n + 1) now rest
      | (none, s') => refresh_loop s' n now rest
    else refresh_loop s n now rest

/-- `refresh_feeds` applied to an already-fetched article list. -/
def refresh_feeds (s : Store) (articles : List NewArticle) (now : String) : Nat × Store :=
  refresh_loop s 0 now articles

-- ============ AI processing ============

/-- Python `str.find`: index of the first occurrence. -/
def str_find (s : String) (c : Char) : Option Nat :=
  s.data.findIdx? (fun x => x = c)

/-- Python `str.rfind`: index of the last occurrence. -/
def str_rfind (s : String) (c : Char) : Option Nat :=
  match s.data.reverse.findIdx? (fun x => x = c) with
  | some j => some (s.data.length - 1 - j)
  | none => none

/-- Python slice `s[a:b]`. -/
def strSlice (s : String) (a b : Nat) : String :=
  String.mk ((s.data.drop a).take (b - a))

/-- The reply-parsing tail of `analyze_article`:
`start = response.find('{'); end = response.rfind('}') + 1;`
`if start >= 0 and end > start: return json.loads(response[start:end])`,
with any `json.loads` failure caught, yielding `None`. -/
def parse_llm_response (response : String) : Option JsonVal :=
  match str_find response '{', str_rfind response '}' with
  | some start, some rEnd =>
    if start < rEnd + 1 then json_loads (strSlice response start (rEnd + 1)) else none
  | some _, none => none
  | none, _ => none

/-- `analyze_article`.  The external service is the oracle `svc`: `none` is a
transport/service error (caught, yielding `None`); `some reply` is the raw
text of the model message.  The second component counts outbound calls.  With
a falsy (empty) key or without the `anthropic` package no call is attempted. -/
def analyze_article (apiKey : String) (hasAnthropic : Bool)
    (svc : Article → Option String) (a : Article) : Option JsonVal × Nat :=
  if apiKey = "" ∨ ¬hasAnthropic then (none, 0)
  else
    match svc a with
    | none => (none, 1)
    | some response => (parse_llm_response response, 1)

/-- The bubble_indicators normalization in `process_unanalyzed`:
`bubble = result.get('bubble_indicators', []); if isinstance(bubble, list): bubble = json.dumps(bubble)`. -/
def enrichBubble (kvs : List (String × JsonVal)) : JsonVal :=
  match (jget kvs "bubble_indicators").getD (.arr []) with
  | .arr xs => .str (dumps (.arr xs))
  | v => v

/-- The field map `process_unanalyzed` passes to `update_article`: the five
analysis fields from `result.get(...)` (missing keys become `None`), with
`bubble_indicators` defaulting to `[]` and pre-serialized when it is a list. -/
def enrich_updates (kvs : List (String × JsonVal)) : List (String × JsonVal) :=
  [("summary", (jget kvs "summary").getD .null),
   ("category", (jget kvs "category").getD .null),
   ("sentiment", (jget kvs "sentiment").getD .null),
   ("sentiment_score", (jget kvs "sentiment_score").getD .null),
   ("bubble_indicators", enrichBubble kvs)]

/-- The loop of `process_unanalyzed` over the selected batch, threading the
store, the processed count and the number of outbound calls.  A truthy
non-dict result or a failing update raises out of the route (`none`). -/
def process_loop (apiKey : String) (hasAnthropic : Bool)
    (svc : Article → Option String) :
    List Article → Store → Nat → Nat → Option (Nat × Store × Nat)
  | [], s, processed, calls => some (processed, s, calls)
  | a :: rest, s, processed, calls =>
    match analyze_article apiKey hasAnthropic svc a with
    | (none, c) => process_loop apiKey hasAnthropic svc rest s processed (calls + c)
    | (some v, c) =>
      if pyTruthy v then
        match v with
        | .obj kvs =>
          match update_article s a.id (enrich_updates kvs) with
          | some s' => process_loop apiKey hasAnthropic svc rest s' (processed + 1) (calls + c)
          | none => none
        | _ => none
      else process_loop apiKey hasAnthropic svc rest s processed (calls + c)

/-- `process_unanalyzed`: select up to 5 unprocessed articles and enrich
them; returns (processed count, final store, outbound calls), or `none` for
an uncaught exception. -/
def process_unanalyzed (apiKey : String) (hasAnthropic : Bool)
    (svc : Article → Option String) (s : Store) : Option (Nat × Store × Nat) :=
  process_loop apiKey hasAnthropic svc (get_unprocessed_articles s 5) s 0 0

def baseRow (i : Nat) (u fetched : String) : Article :=
  { id := i, title := .text "T", url := .text u, source := .text "S",
    published_date := .text "2026-01-01T00:00:00", fetched_date := .text fetched,
    content := .text "c", summary := .null, category := .null, sentiment := .null,
    sentiment_score := .null, bubble_indicators := .null, is_read := .int 0 }

def storeW : Store :=
  { rows := [baseRow 1 "u1" "2026-01-02T00:00:00",
             baseRow 2 "u2" "2026-01-03T00:00:00",
             { baseRow 3 "u3" "2026-01-04T00:00:00" with summary := .text "done" }],
    nextId := 4 }

def countUrl (s : Store) (u : String) : Nat :=
  (s.rows.filter (fun r => r.url = SVal.text u)).length

def scenarioReply : String :=
  "Here you go: \x7b\"summary\":\"s\",\"category\":\"AI Market\",\"sentiment\":\"Bullish\",\"sentiment_score\":0.5,\"bubble_indicators\":[\"x\"]\x7d thanks"

def scenarioEmbedded : String :=
  "\x7b\"summary\":\"s\",\"category\":\"AI Market\",\"sentiment\":\"Bullish\",\"sentiment_score\":0.5,\"bubble_indicators\":[\"x\"]\x7d"

def scenarioObj : JsonVal :=
  .obj [("summary", .str "s"), ("category", .str "AI Market"),
        ("sentiment", .str "Bullish"), ("sentiment_score", .float 5 1),
        ("bubble_indicators", .arr [.str "x"])]

def entryW : FeedEntry :=
  { title := some "T1", link := some "http://a/1", published := none,
    updated := none, content_value := some "<p>Hello <b>world</b></p>",
    summary := none }

/-- All five analysis fields are set (non-NULL). -/
def analysisAllSet (r : Article) : Prop :=
  r.summary ≠ SVal.null ∧ r.category ≠ SVal.null ∧ r.sentiment ≠ SVal.null ∧
  r.sentiment_score ≠ SVal.null ∧ r.bubble_indicators ≠ SVal.null

instance (r : Article) : Decidable (analysisAllSet r) :=
  inferInstanceAs (Decidable (r.summary ≠ SVal.null ∧ r.category ≠ SVal.null ∧
    r.sentiment ≠ SVal.null ∧ r.sentiment_score ≠ SVal.null ∧
    r.bubble_indicators ≠ SVal.null))

/-- The row transformation performed by the enrichment update. -/
def enrichRow (i : Nat) (v1 v2 v3 v4 v5 : SVal) (r : Article) : Article :=
  if r.id = i then
    { r with summary := v1, category := v2, sentiment := v3,
             sentiment_score := v4, bubble_indicators := v5 }
  else r

/-- One iteration of the `update_article` loop as a row transformation. -/
def stepFun (i : Nat) (c : Col) (sv : SVal) : Article → Article :=
  fun r => if r.id = i then setCol c sv r else r

def store1 : Store :=
  { rows := [baseRow 1 "u1" "2026-01-02T00:00:00"], nextId := 2 }

def svcC1 : Article → Option String :=
  fun _ => some "Here: \x7b\"category\": \"AI Market\"\x7d"

def rowC1 : Article :=
  { baseRow 1 "u1" "2026-01-02T00:00:00" with
      category := .text "AI Market", bubble_indicators := .text "[]" }

def kvsW : List (String × JsonVal) :=
  [("summary", .str "s"), ("category", .str "AI Market"), ("sentiment", .str "Bullish"),
   ("sentiment_score", .float 5 1), ("bubble_indicators", .arr [.str "x"])]

def rowKW : Article :=
  { baseRow 1 "u1" "2026-01-02T00:00:00" with
      summary := .text "s", category := .text "AI Market", sentiment := .text "Bullish",
      sentiment_score := .real 5 1, bubble_indicators := .text "[\"x\"]" }

/-- A Python value `sqlite3` can bind as a parameter. -/
def storable (v : JsonVal) : Prop :=
  (toSqlite (convUpdateVal v)).isSome = true

instance : DecidablePred storable :=
  fun v => inferInstanceAs (Decidable ((toSqlite (convUpdateVal v)).isSome = true))

/-- A character that JSON-encodes to itself (printable ASCII, no quote or
backslash). -/
def plainChar (c : Char) : Bool :=
  c ≠ '"' ∧ c ≠ '\\' ∧ 0x20 ≤ c.toNat ∧ c.toNat ≤ 0x7e

/-- How a stored column value reads back into Python through
`dict(row)` (TEXT stays a `str`; nothing deserializes it). -/
def pyReadVal : SVal → JsonVal
  | .null => .null
  | .int i => .int i
  | .real m e => .float m e
  | .text s => .str s

def rowC2 : Article :=
  { baseRow 1 "u1" "2026-01-02T00:00:00" with
      bubble_indicators := .text "[\"x\", \"y\"]" }

/-- sentiment ∈ {Bullish, Neutral, Bearish} or NULL. -/
def sentOk (v : SVal) : Prop :=
  v = .null ∨ v = .text "Bullish" ∨ v = .text "Neutral" ∨ v = .text "Bearish"

/-- category ∈ the fixed 7-label set or NULL. -/
def catOk (v : SVal) : Prop :=
  v = .null ∨ v = .text "AI Funding" ∨ v = .text "AI Valuations" ∨
  v = .text "AI Layoffs" ∨ v = .text "AI Products" ∨ v = .text "AI Research" ∨
  v = .text "AI Regulation" ∨ v = .text "AI Market"

/-- sentiment_score is NULL or a REAL in [-1.0, 1.0]
(`real m e` denotes `m / 10 ^ e`). -/
def scoreOk : SVal → Prop
  | .null => True
  | .real m e => -((10 : Int) ^ e) ≤ m ∧ m ≤ (10 : Int) ^ e
  | _ => False

/-- The value-set invariant of one row, as the spec states it. -/
def rowOk (r : Article) : Prop :=
  sentOk r.sentiment ∧ catOk r.category ∧ (r.sentiment ≠ .null → scoreOk r.sentiment_score)

/-- The value-set invariant over the whole store. -/
def storeOk (s : Store) : Prop := ∀ r ∈ s.rows, rowOk r

instance : DecidablePred sentOk :=
  fun v => inferInstanceAs (Decidable (v = .null ∨ v = .text "Bullish" ∨
    v = .text "Neutral" ∨ v = .text "Bearish"))

instance : DecidablePred catOk :=
  fun v => inferInstanceAs (Decidable (v = .null ∨ v = .text "AI Funding" ∨
    v = .text "AI Valuations" ∨ v = .text "AI Layoffs" ∨ v = .text "AI Products" ∨
    v = .text "AI Research" ∨ v = .text "AI Regulation" ∨ v = .text "AI Market"))

instance : DecidablePred scoreOk := fun v =>
  match v with
  | .null => isTrue trivial
  | .real _ _ => inferInstanceAs (Decidable (_ ∧ _))
  | .int _ => isFalse (fun h => h)
  | .text _ => isFalse (fun h => h)

instance (r : Article) : Decidable (rowOk r) :=
  inferInstanceAs (Decidable (_ ∧ _ ∧ _))

instance (s : Store) : Decidable (storeOk s) :=
  inferInstanceAs (Decidable (∀ r ∈ s.rows, rowOk r))

def svcC4 : Article → Option String :=
  fun _ => some "\x7b\"summary\": \"s\", \"category\": \"Crypto\", \"sentiment\": \"Sideways\", \"sentiment_score\": 5.0, \"bubble_indicators\": []\x7d"

def rowC4 : Article :=
  { baseRow 1 "u1" "2026-01-02T00:00:00" with
      summary := .text "s", category := .text "Crypto", sentiment := .text "Sideways",
      sentiment_score := .real 50 1, bubble_indicators := .text "[]" }

/-- A parsed analysis result whose stored sentiment/category/score values
satisfy the spec's value sets. -/
def GoodKvs (kvs : List (String × JsonVal)) : Prop :=
  (∀ v, toSqlite (convUpdateVal ((jget kvs "sentiment").getD .null)) = some v → sentOk v) ∧
  (∀ v, toSqlite (convUpdateVal ((jget kvs "category").getD .null)) = some v → catOk v) ∧
  (∀ v v', toSqlite (convUpdateVal ((jget kvs "sentiment").getD .null)) = some v →
    v ≠ .null →
    toSqlite (convUpdateVal ((jget kvs "sentiment_score").getD .null)) = some v' →
    scoreOk v')

/-- A classification service whose parsed replies keep the spec's value
sets. -/
def GoodSvc (svc : Article → Option String) : Prop :=
  ∀ a reply kvs, svc a = some reply →
    parse_llm_response reply = some (.obj kvs) → GoodKvs kvs

def payloadW : NewArticle :=
  { title := some "T1", url := some "u1", source := some "S",
    published_date := none, content := none }

def emptyS : Store := { rows := [], nextId := 1 }

def s1W : Store := { rows := [insertedRow emptyS payloadW "t1"], nextId := 2 }

-- ============ Theorems ============

theorem charListLe_cons {a b : Char} {as bs : List Char} :
    charListLe (a :: as) (b :: bs) = true ↔
      (a.toNat < b.toNat ∨ (a.toNat = b.toNat ∧ charListLe as bs = true)) := by
  simp only [charListLe]
  split_ifs with h1 h2
  · simp [h1]
  · simp
    omega
  · have he : a.toNat = b.toNat := by omega
    simp [he]

theorem charListLe_total : ∀ as bs : List Char, charListLe as bs = true ∨ charListLe bs as = true
  | [], _ => Or.inl rfl
  | _ :: _, [] => Or.inr rfl
  | a :: as, b :: bs => by
    rcases Nat.lt_trichotomy a.toNat b.toNat with h | h | h
    · exact Or.inl (charListLe_cons.mpr (Or.inl h))
    · rcases charListLe_total as bs with ih | ih
      · exact Or.inl (charListLe_cons.mpr (Or.inr ⟨h, ih⟩))
      · exact Or.inr (charListLe_cons.mpr (Or.inr ⟨h.symm, ih⟩))
    · exact Or.inr (charListLe_cons.mpr (Or.inl h))

theorem charListLe_trans : ∀ as bs cs : List Char,
    charListLe as bs = true → charListLe bs cs = true → charListLe as cs = true
  | [], _, _ => by intro h1 h2; rfl
  | _ :: _, [], _ => by intro h1 h2; simp [charListLe] at h1
  | _ :: _, _ :: _, [] => by intro h1 h2; simp [charListLe] at h2
  | a :: as, b :: bs, c :: cs => by
    intro h1 h2
    rcases charListLe_cons.mp h1 with hab | ⟨hab, tab⟩ <;>
      rcases charListLe_cons.mp h2 with hbc | ⟨hbc, tbc⟩
    · exact charListLe_cons.mpr (Or.inl (Nat.lt_trans hab hbc))
    · exact charListLe_cons.mpr (Or.inl (by omega))
    · exact charListLe_cons.mpr (Or.inl (by omega))
    · exact charListLe_cons.mpr (Or.inr ⟨by omega, charListLe_trans as bs cs tab tbc⟩)

theorem scaled_le_trans {a b c : Int} {x y z : Nat}
    (h1 : a * 10 ^ y ≤ b * 10 ^ x) (h2 : b * 10 ^ z ≤ c * 10 ^ y) :
    a * 10 ^ z ≤ c * 10 ^ x := by
  have hy : (0 : Int) < 10 ^ y := pow_pos (by norm_num) y
  have hz : (0 : Int) ≤ 10 ^ z := le_of_lt (pow_pos (by norm_num) z)
  have hx : (0 : Int) ≤ 10 ^ x := le_of_lt (pow_pos (by norm_num) x)
  have h1' := mul_le_mul_of_nonneg_right h1 hz
  have h2' := mul_le_mul_of_nonneg_right h2 hx
  have key : a * 10 ^ z * 10 ^ y ≤ c * 10 ^ x * 10 ^ y := by nlinarith
  exact le_of_mul_le_mul_right key hy

theorem sqle_total : ∀ a b : SVal, a.sqle b = true ∨ b.sqle a = true := by
  intro a b
  cases a <;> cases b <;> simp only [SVal.sqle, decide_eq_true_eq] <;>
    first
      | exact Or.inl trivial
      | exact Or.inr trivial
      | exact Int.le_total ..
      | exact charListLe_total ..

theorem pow10_pos (e : Nat) : (0 : Int) < 10 ^ e := pow_pos (by norm_num) e

theorem sqle_trans : ∀ a b c : SVal, a.sqle b = true → b.sqle c = true → a.sqle c = true
  | .null, _, c => fun _ _ => by cases c <;> simp [SVal.sqle]
  | .int _, .null, _ => fun h1 _ => absurd h1 (by simp [SVal.sqle])
  | .real _ _, .null, _ => fun h1 _ => absurd h1 (by simp [SVal.sqle])
  | .text _, .null, _ => fun h1 _ => absurd h1 (by simp [SVal.sqle])
  | .int _, .int _, .null => fun _ h2 => absurd h2 (by simp [SVal.sqle])
  | .int _, .real _ _, .null => fun _ h2 => absurd h2 (by simp [SVal.sqle])
  | .int _, .text _, .null => fun _ h2 => absurd h2 (by simp [SVal.sqle])
  | .real _ _, .int _, .null => fun _ h2 => absurd h2 (by simp [SVal.sqle])
  | .real _ _, .real _ _, .null => fun _ h2 => absurd h2 (by simp [SVal.sqle])
  | .real _ _, .text _, .null => fun _ h2 => absurd h2 (by simp [SVal.sqle])
  | .text _, .int _, _ => fun h1 _ => absurd h1 (by simp [SVal.sqle])
  | .int _, .text _, .int _ => fun _ h2 => absurd h2 (by simp [SVal.sqle])
  | .int _, .text _, .real _ _ => fun _ h2 => absurd h2 (by simp [SVal.sqle])
  | .int _, .text _, .text _ => fun _ _ => by simp [SVal.sqle]
  | .real _ _, .text _, .int _ => fun _ h2 => absurd h2 (by simp [SVal.sqle])
  | .real _ _, .text _, .real _ _ => fun _ h2 => absurd h2 (by simp [SVal.sqle])
  | .real _ _, .text _, .text _ => fun _ _ => by simp [SVal.sqle]
  | .text _, .real _ _, _ => fun h1 _ => absurd h1 (by simp [SVal.sqle])
  | .text _, .text _, .null => fun _ h2 => absurd h2 (by simp [SVal.sqle])
  | .text _, .text _, .int _ => fun _ h2 => absurd h2 (by simp [SVal.sqle])
  | .text _, .text _, .real _ _ => fun _ h2 => absurd h2 (by simp [SVal.sqle])
  | .text s, .text t, .text u => fun h1 h2 => by
    simp only [SVal.sqle] at h1 h2 ⊢
    exact charListLe_trans _ _ _ h1 h2
  | .int _, .int _, .text _ => fun _ _ => by simp [SVal.sqle]
  | .int _, .real _ _, .text _ => fun _ _ => by simp [SVal.sqle]
  | .real _ _, .int _, .text _ => fun _ _ => by simp [SVal.sqle]
  | .real _ _, .real _ _, .text _ => fun _ _ => by simp [SVal.sqle]
  | .int a, .int b, .int c => fun h1 h2 => by
    simp only [SVal.sqle, decide_eq_true_eq] at h1 h2 ⊢
    omega
  | .int a, .int b, .real m e => fun h1 h2 => by
    simp only [SVal.sqle, decide_eq_true_eq] at h1 h2 ⊢
    have := mul_le_mul_of_nonneg_right h1 (le_of_lt (pow10_pos e))
    exact le_trans this h2
  | .int a, .real m e, .int c => fun h1 h2 => by
    simp only [SVal.sqle, decide_eq_true_eq] at h1 h2 ⊢
    exact le_of_mul_le_mul_right (le_trans h1 h2) (pow10_pos e)
  | .int a, .real m e, .real m' e' => fun h1 h2 => by
    simp only [SVal.sqle, decide_eq_true_eq] at h1 h2 ⊢
    have key : a * 10 ^ e' * 10 ^ e ≤ m' * 10 ^ e := by
      nlinarith [mul_le_mul_of_nonneg_right h1 (le_of_lt (pow10_pos e'))]
    exact le_of_mul_le_mul_right key (pow10_pos e)
  | .real m e, .int b, .int c => fun h1 h2 => by
    simp only [SVal.sqle, decide_eq_true_eq] at h1 h2 ⊢
    have := mul_le_mul_of_nonneg_right h2 (le_of_lt (pow10_pos e))
    exact le_trans h1 this
  | .real m e, .int b, .real m' e' => fun h1 h2 => by
    simp only [SVal.sqle, decide_eq_true_eq] at h1 h2 ⊢
    have key : m * 10 ^ e' ≤ m' * 10 ^ e := by
      nlinarith [mul_le_mul_of_nonneg_right h1 (le_of_lt (pow10_pos e')),
        mul_le_mul_of_nonneg_right h2 (le_of_lt (pow10_pos e))]
    exact key
  | .real m e, .real m' e', .int c => fun h1 h2 => by
    simp only [SVal.sqle, decide_eq_true_eq] at h1 h2 ⊢
    have key : m * 10 ^ e' ≤ c * 10 ^ e * 10 ^ e' := by
      nlinarith [mul_le_mul_of_nonneg_right h2 (le_of_lt (pow10_pos e))]
    have := le_of_mul_le_mul_right (by nlinarith [key] : m * 10 ^ e' ≤ c * 10 ^ e * 10 ^ e') (pow10_pos e')
    nlinarith [key, pow10_pos e']
  | .real m e, .real m' e', .real m'' e'' => fun h1 h2 => by
    simp only [SVal.sqle, decide_eq_true_eq] at h1 h2 ⊢
    exact scaled_le_trans h1 h2

theorem byDesc_total (key : Article → SVal) : ∀ a b : Article, byDesc key a b ∨ byDesc key b a :=
  fun a b => (sqle_total (key b) (key a)).imp id id

theorem byDesc_trans (key : Article → SVal) :
    ∀ a b c : Article, byDesc key a b → byDesc key b c → byDesc key a c :=
  fun _ _ _ h1 h2 => sqle_trans _ _ _ h2 h1

/-- Claim C5: for every store state and every limit, `get_unprocessed_articles`
returns at most `limit` articles, every returned article has a NULL summary,
and the result is ordered by fetched_date descending. -/
theorem claim_C5 (s : Store) (limit : Nat) :
    (get_unprocessed_articles s limit).length ≤ limit ∧
    (∀ a ∈ get_unprocessed_articles s limit, a.summary = SVal.null) ∧
    List.Sorted (byDesc (fun r => r.fetched_date)) (get_unprocessed_articles s limit) := by
  refine ⟨?_, ?_, ?_⟩
  · simp only [get_unprocessed_articles]
    exact List.length_take_le limit _
  · intro a ha
    have ha1 : a ∈ (s.rows.filter (fun r => r.summary = SVal.null)).insertionSort
        (byDesc (fun r => r.fetched_date)) := List.take_subset _ _ ha
    have ha2 := (List.mem_insertionSort _).1 ha1
    have := List.mem_filter.1 ha2
    exact of_decide_eq_true this.2
  · haveI : IsTotal Article (byDesc (fun r => r.fetched_date)) := ⟨byDesc_total _⟩
    haveI : IsTrans Article (byDesc (fun r => r.fetched_date)) := ⟨byDesc_trans _⟩
    exact List.Pairwise.sublist (List.take_sublist _ _) (List.sorted_insertionSort _ _)

/-- Witness for C5 at a concrete three-row store. -/
theorem claim_C5_witness :
    (get_unprocessed_articles storeW 2).length ≤ 2 ∧
    baseRow 2 "u2" "2026-01-03T00:00:00" ∈ get_unprocessed_articles storeW 2 ∧
    (baseRow 2 "u2" "2026-01-03T00:00:00").summary = SVal.null :=
  ⟨(claim_C5 storeW 2).1, by decide,
   (claim_C5 storeW 2).2.1 _ (by decide)⟩

theorem process_loop_no_key (hasA : Bool) (svc : Article → Option String) :
    ∀ (arts : List Article) (s : Store) (p c : Nat),
      process_loop "" hasA svc arts s p c = some (p, s, c)
  | [], _, _, _ => rfl
  | a :: rest, s, p, c => by
    simp only [process_loop, analyze_article, if_pos (Or.inl rfl)]
    simpa using process_loop_no_key hasA svc rest s p (c + 0)

/-- Claim C7: with no credential configured (empty API key) the enrichment
client signals `None` immediately without attempting an outbound call, and
the enrichment pipeline processes 0 articles, makes zero outbound calls and
returns the store unchanged. -/
theorem claim_C7 :
    (∀ (hasA : Bool) (svc : Article → Option String) (a : Article),
      analyze_article "" hasA svc a = (none, 0)) ∧
    (∀ (hasA : Bool) (svc : Article → Option String) (s : Store),
      process_unanalyzed "" hasA svc s = some (0, s, 0)) := by
  constructor
  · intro hasA svc a
    simp [analyze_article]
  · intro hasA svc s
    exact process_loop_no_key hasA svc _ s 0 0

/-- Claim C3: inserting a payload whose url already exists leaves the store
unchanged and returns the `None` duplicate sentinel rather than raising; and
inserting the same (valid, fresh) url twice in succession yields exactly one
stored row with that url, the second insert reporting the sentinel. -/
theorem claim_C3 (s : Store) (p : NewArticle) (u now now' : String)
    (hu : p.url = some u) (ht : p.title ≠ none) (hs : p.source ≠ none) :
    ((∃ r ∈ s.rows, r.url = SVal.text u) → add_article s p now = (none, s)) ∧
    (countUrl s u = 0 →
      ∃ s₁, add_article s p now = (some s.nextId, s₁) ∧
        add_article s₁ p now' = (none, s₁) ∧ countUrl s₁ u = 1) := by
  have hnotnull : ¬ (p.title = none ∨ p.url = none ∨ p.source = none) := by
    simp [ht, hs, hu]
  constructor
  · rintro ⟨r, hr, hru⟩
    have hany : s.rows.any (fun r => r.url = optText p.url) = true := by
      rw [List.any_eq_true]
      exact ⟨r, hr, by simp [hu, optText, hru]⟩
    simp [add_article, hnotnull, hany]
  · intro hcount
    have hany : s.rows.any (fun r => r.url = optText p.url) = false := by
      rw [List.any_eq_false]
      intro r hr
      simp only [hu, optText, decide_eq_true_eq]
      intro hru
      have : r ∈ s.rows.filter (fun r => r.url = SVal.text u) :=
        List.mem_filter.2 ⟨hr, by simp [hru]⟩
      rw [countUrl, List.length_eq_zero] at hcount
      simp [hcount] at this
    have hfe : s.rows.filter (fun r => r.url = SVal.text u) = [] := by
      rw [countUrl, List.length_eq_zero] at hcount
      exact hcount
    refine ⟨{ rows := s.rows ++ [insertedRow s p now], nextId := s.nextId + 1 }, ?_, ?_, ?_⟩
    · simp [add_article, hnotnull, hany]
    · have hany2 : (s.rows ++ [insertedRow s p now]).any
          (fun r => r.url = optText p.url) = true := by
        rw [List.any_eq_true]
        exact ⟨insertedRow s p now,
          List.mem_append_right _ (List.mem_singleton_self _), by simp [insertedRow]⟩
      simp [add_article, hnotnull, hany2]
    · simp [countUrl, List.filter_append, hfe, hu, optText, insertedRow]

/-- Claim C10: a payload violating any storage constraint — NULL title, NULL
url, NULL source, or a duplicate url — makes `add_article` return the same
single `None` sentinel with the store unchanged, so the caller cannot tell a
duplicate from any other violation; the ingestion loop treats every such
payload identically as not new (count and store unchanged by that step). -/
theorem claim_C10 (s : Store) (p : NewArticle) (now : String)
    (hviol : p.title = none ∨ p.url = none ∨ p.source = none ∨
      (∃ u, p.url = some u ∧ ∃ r ∈ s.rows, r.url = SVal.text u)) :
    add_article s p now = (none, s) ∧
    (∀ (n : Nat) (rest : List NewArticle),
      refresh_loop s n now (p :: rest) = refresh_loop s n now rest) := by
  have hadd : add_article s p now = (none, s) := by
    by_cases hnull : p.title = none ∨ p.url = none ∨ p.source = none
    · simp [add_article, hnull]
    · rcases hviol with h | h | h | ⟨u, hu, r, hr, hru⟩
      · exact absurd (Or.inl h) hnull
      · exact absurd (Or.inr (Or.inl h)) hnull
      · exact absurd (Or.inr (Or.inr h)) hnull
      · have hany : s.rows.any (fun r => r.url = optText p.url) = true := by
          rw [List.any_eq_true]
          exact ⟨r, hr, by simp [hu, optText, hru]⟩
        simp [add_article, hnull, hany]
  refine ⟨hadd, fun n rest => ?_⟩
  by_cases hurl : p.url.getD "" ≠ ""
  · simp [refresh_loop, hurl, hadd]
  · simp [refresh_loop, hurl]

/-- Witness for C10 at a NULL-title payload. -/
theorem claim_C10_witness :
    add_article { rows := [], nextId := 1 }
      { title := none, url := some "u9", source := some "S",
        published_date := none, content := none } "t0" =
      (none, { rows := [], nextId := 1 }) ∧
    refresh_loop { rows := [], nextId := 1 } 0 "t0"
        [{ title := none, url := some "u9", source := some "S",
           published_date := none, content := none }] =
      refresh_loop { rows := [], nextId := 1 } 0 "t0" [] := by
  have h := claim_C10 { rows := [], nextId := 1 }
    { title := none, url := some "u9", source := some "S",
      published_date := none, content := none } "t0" (Or.inl rfl)
  exact ⟨h.1, h.2 0 []⟩

set_option maxRecDepth 100000 in
/-- Claim C6: the enrichment client extracts the span from the first `{` to
the last `}` of the raw reply and parses only that span — the scenario reply
with surrounding prose parses to exactly the embedded object — and when
there is no such span, or the span fails to parse, it returns `None` rather
than raising. -/
theorem claim_C6 :
    (parse_llm_response scenarioReply = some scenarioObj ∧
     json_loads scenarioEmbedded = some scenarioObj) ∧
    (∀ r : String, str_find r '{' = none → parse_llm_response r = none) ∧
    (∀ r : String, str_rfind r '}' = none → parse_llm_response r = none) ∧
    (∀ (r : String) (i j : Nat), str_find r '{' = some i → str_rfind r '}' = some j →
      i < j + 1 → json_loads (strSlice r i (j + 1)) = none → parse_llm_response r = none) ∧
    (∀ (r : String) (i j : Nat), str_find r '{' = some i → str_rfind r '}' = some j →
      ¬ i < j + 1 → parse_llm_response r = none) := by
  refine ⟨⟨rfl, rfl⟩, ?_, ?_, ?_, ?_⟩
  · intro r hf
    simp [parse_llm_response, hf]
  · intro r hr
    cases hf : str_find r '{' <;> simp [parse_llm_response, hf, hr]
  · intro r i j hf hr hlt hfail
    simp [parse_llm_response, hf, hr, hlt, hfail]
  · intro r i j hf hr hge
    simp [parse_llm_response, hf, hr, hge]

/-- Witness for C6 at a reply with no brace. -/
theorem claim_C6_witness :
    str_find "no braces at all" '{' = none ∧
    parse_llm_response "no braces at all" = none :=
  ⟨rfl, claim_C6.2.1 "no braces at all" rfl⟩

theorem clean_html_len (raw : String) : (clean_html raw).length ≤ 3000 := by
  have h : (clean_html raw).length =
      ((joinSegs
        (((htmlSegsAux raw.data false []).map trimChars).filter (fun l => l ≠ []))).take
          3000).length := rfl
  rw [h, List.length_take]
  exact min_le_left _ _

theorem refresh_rows_bound (now : String) :
    ∀ (arts : List NewArticle) (s : Store) (n : Nat),
      (∀ a ∈ arts, ∃ c, a.content = some c ∧ c.length ≤ 3000) →
      ∀ r ∈ (refresh_loop s n now arts).2.rows,
        r ∈ s.rows ∨ ∃ c, r.content = SVal.text c ∧ c.length ≤ 3000
  | [], s, n => by
    intro _ r hr
    exact Or.inl hr
  | a :: rest, s, n => by
    intro hb r hr
    have hba := hb a (List.mem_cons_self a rest)
    have hbrest : ∀ a ∈ rest, ∃ c, a.content = some c ∧ c.length ≤ 3000 :=
      fun x hx => hb x (List.mem_cons_of_mem a hx)
    simp only [refresh_loop] at hr
    by_cases hurl : a.url.getD "" ≠ ""
    · rw [if_pos hurl] at hr
      by_cases hnull : a.title = none ∨ a.url = none ∨ a.source = none
      · simp only [add_article, if_pos hnull] at hr
        exact refresh_rows_bound now rest s n hbrest r hr
      · by_cases hany : s.rows.any (fun r => r.url = optText a.url) = true
        · simp only [add_article, if_neg hnull, if_pos hany] at hr
          exact refresh_rows_bound now rest s n hbrest r hr
        · simp only [add_article, if_neg hnull, if_neg hany] at hr
          rcases refresh_rows_bound now rest _ _ hbrest r hr with hold | hnew
          · rcases List.mem_append.1 hold with h | h
            · exact Or.inl h
            · right
              rcases hba with ⟨c, hc, hlen⟩
              have : r = insertedRow s a now := List.mem_singleton.1 h
              exact ⟨c, by simp [this, insertedRow, hc, optText], hlen⟩
          · exact Or.inr hnew
    · rw [if_neg hurl] at hr
      exact refresh_rows_bound now rest s n hbrest r hr

/-- Claim C8: every sanitized content string has length at most 3000; the
input `<p>Hello <b>world</b></p>` sanitizes to `Hello world`; every article
produced by the feed fetcher carries content of length at most 3000; and
every row the ingestion pipeline stores is either pre-existing or has
content of length at most 3000. -/
theorem claim_C8 :
    (∀ raw : String, (clean_html raw).length ≤ 3000) ∧
    clean_html "<p>Hello <b>world</b></p>" = "Hello world" ∧
    (∀ (feedName now : String) (entries : List FeedEntry),
      ∀ a ∈ fetch_feed feedName now entries, ∃ c, a.content = some c ∧ c.length ≤ 3000) ∧
    (∀ (s : Store) (now feedName nowF : String) (entries : List FeedEntry),
      ∀ r ∈ (refresh_feeds s (fetch_feed feedName nowF entries) now).2.rows,
        r ∈ s.rows ∨ ∃ c, r.content = SVal.text c ∧ c.length ≤ 3000) := by
  have hfetch : ∀ (feedName now : String) (entries : List FeedEntry),
      ∀ a ∈ fetch_feed feedName now entries, ∃ c, a.content = some c ∧ c.length ≤ 3000 := by
    intro feedName now entries a ha
    rcases List.mem_map.1 ha with ⟨e, _, rfl⟩
    by_cases h0 : (match e.content_value with
      | some v => v
      | none => match e.summary with | some s => s | none => "") = ""
    · exact ⟨"", by simp [fetch_entry, h0], by decide⟩
    · exact ⟨clean_html (match e.content_value with
        | some v => v
        | none => match e.summary with | some s => s | none => ""),
        by simp [fetch_entry, h0], clean_html_len _⟩
  refine ⟨clean_html_len, by rfl, hfetch, ?_⟩
  intro s now feedName nowF entries r hr
  exact refresh_rows_bound now _ s 0 (hfetch feedName nowF entries) r hr

/-- Witness for C8 at the spec's scenario entry. -/
theorem claim_C8_witness :
    fetch_entry "F" "t0" entryW ∈ fetch_feed "F" "t0" [entryW] ∧
    (fetch_entry "F" "t0" entryW).content = some "Hello world" ∧
    ("Hello world" : String).length ≤ 3000 := by
  obtain ⟨c, hc, hlen⟩ := claim_C8.2.2.1 "F" "t0" [entryW]
    (fetch_entry "F" "t0" entryW) (by decide)
  have hconc : (fetch_entry "F" "t0" entryW).content = some "Hello world" := by decide
  have hcv : c = "Hello world" := Option.some_inj.1 (hc.symm.trans hconc)
  subst hcv
  exact ⟨by decide, hc, hlen⟩

theorem setCol_id (c : Col) (v : SVal) (r : Article) : (setCol c v r).id = r.id := by
  cases c <;> rfl

theorem updateKey_valid (st : Store) (i : Nat) (k : String) (c : Col) (w : JsonVal) (sv : SVal)
    (hk : colOf k = some c) (hv : toSqlite (convUpdateVal w) = some sv) :
    updateKey st i k w = some { rows := st.rows.map (stepFun i c sv), nextId := st.nextId } := by
  unfold updateKey
  rw [hk, hv]
  rfl

theorem stepFun_chain (i : Nat) (v1 v2 v3 v4 v5 : SVal) (r : Article) :
    stepFun i Col.bubble_indicators v5 (stepFun i Col.sentiment_score v4 (stepFun i Col.sentiment v3
      (stepFun i Col.category v2 (stepFun i Col.summary v1 r)))) =
    enrichRow i v1 v2 v3 v4 v5 r := by
  by_cases h : r.id = i
  · have e1 : stepFun i Col.summary v1 r = setCol Col.summary v1 r := if_pos h
    rw [e1]
    have hid1 : (setCol Col.summary v1 r).id = i := (setCol_id _ _ _).trans h
    have e2 : stepFun i Col.category v2 (setCol Col.summary v1 r) =
        setCol Col.category v2 (setCol Col.summary v1 r) := if_pos hid1
    rw [e2]
    have hid2 : (setCol Col.category v2 (setCol Col.summary v1 r)).id = i :=
      (setCol_id _ _ _).trans hid1
    have e3 : stepFun i Col.sentiment v3 _ = setCol Col.sentiment v3
        (setCol Col.category v2 (setCol Col.summary v1 r)) := if_pos hid2
    rw [e3]
    have hid3 : (setCol Col.sentiment v3 (setCol Col.category v2 (setCol Col.summary v1 r))).id = i :=
      (setCol_id _ _ _).trans hid2
    have e4 : stepFun i Col.sentiment_score v4 _ = setCol Col.sentiment_score v4
        (setCol Col.sentiment v3 (setCol Col.category v2 (setCol Col.summary v1 r))) := if_pos hid3
    rw [e4]
    have hid4 : (setCol Col.sentiment_score v4 (setCol Col.sentiment v3 (setCol Col.category v2
        (setCol Col.summary v1 r)))).id = i := (setCol_id _ _ _).trans hid3
    have e5 : stepFun i Col.bubble_indicators v5 _ = setCol Col.bubble_indicators v5
        (setCol Col.sentiment_score v4 (setCol Col.sentiment v3 (setCol Col.category v2
          (setCol Col.summary v1 r)))) := if_pos hid4
    rw [e5, enrichRow, if_pos h]
    rfl
  · have e : ∀ k sv, stepFun i k sv r = r := fun k sv => if_neg h
    rw [e, e, e, e, e, enrichRow, if_neg h]

theorem enrich_update_eq (s : Store) (i : Nat) (kvs : List (String × JsonVal))
    (v1 v2 v3 v4 v5 : SVal)
    (h1 : toSqlite (convUpdateVal ((jget kvs "summary").getD .null)) = some v1)
    (h2 : toSqlite (convUpdateVal ((jget kvs "category").getD .null)) = some v2)
    (h3 : toSqlite (convUpdateVal ((jget kvs "sentiment").getD .null)) = some v3)
    (h4 : toSqlite (convUpdateVal ((jget kvs "sentiment_score").getD .null)) = some v4)
    (h5 : toSqlite (convUpdateVal (enrichBubble kvs)) = some v5) :
    update_article s i (enrich_updates kvs) =
      some { rows := s.rows.map (enrichRow i v1 v2 v3 v4 v5), nextId := s.nextId } := by
  have step : ∀ (st : Store) (k : String) (c : Col) (w : JsonVal) (sv : SVal),
      colOf k = some c → toSqlite (convUpdateVal w) = some sv →
      updateKey st i k w = some { rows := st.rows.map (stepFun i c sv), nextId := st.nextId } :=
    fun st k c w sv hk hv => updateKey_valid st i k c w sv hk hv
  simp only [update_article, enrich_updates, List.foldlM_cons, List.foldlM_nil]
  rw [step s _ Col.summary _ _ (by decide) h1]
  simp only [Option.bind_eq_bind, Option.some_bind]
  rw [step _ _ Col.category _ _ (by decide) h2]
  simp only [Option.some_bind]
  rw [step _ _ Col.sentiment _ _ (by decide) h3]
  simp only [Option.some_bind]
  rw [step _ _ Col.sentiment_score _ _ (by decide) h4]
  simp only [Option.some_bind]
  rw [step _ _ Col.bubble_indicators _ _ (by decide) h5]
  simp only [Option.some_bind, List.map_map, pure]
  congr 1
  congr 1
  exact List.map_congr_left (fun r _ => stepFun_chain i v1 v2 v3 v4 v5 r)

theorem enrichRow_id (i : Nat) (v1 v2 v3 v4 v5 : SVal) (r : Article) :
    (enrichRow i v1 v2 v3 v4 v5 r).id = r.id := by
  unfold enrichRow
  split_ifs <;> rfl

/-- Counterexample for C1: with a service reply `{"category": "AI Market"}` the
pipeline applies an update that changes the row while leaving summary,
sentiment and sentiment_score NULL — neither "all five fields non-null" nor
"row unchanged" holds. -/
theorem claim_C1_counterexample :
    process_unanalyzed "k" true svcC1 store1 = some (1, { rows := [rowC1], nextId := 2 }, 1) ∧
    get_article { rows := [rowC1], nextId := 2 } 1 = some rowC1 ∧
    ¬ (analysisAllSet rowC1 ∨ rowC1 = baseRow 1 "u1" "2026-01-02T00:00:00") := by
  refine ⟨by decide, by decide, by decide⟩

/-- Amended claim C1: an enrichment update writes all five analysis columns in one
`update_article` call, each set to exactly the value the analysis result
supplies — missing summary/category/sentiment/sentiment_score keys are
stored as NULL and a missing bubble_indicators key as the text `[]` — so the
fields are all non-null after the update only when the result supplies a
non-null value for each; otherwise the row can end up partially set. -/
theorem claim_C1_amended (s : Store) (i : Nat) (kvs : List (String × JsonVal))
    (v1 v2 v3 v4 v5 : SVal)
    (h1 : toSqlite (convUpdateVal ((jget kvs "summary").getD .null)) = some v1)
    (h2 : toSqlite (convUpdateVal ((jget kvs "category").getD .null)) = some v2)
    (h3 : toSqlite (convUpdateVal ((jget kvs "sentiment").getD .null)) = some v3)
    (h4 : toSqlite (convUpdateVal ((jget kvs "sentiment_score").getD .null)) = some v4)
    (h5 : toSqlite (convUpdateVal (enrichBubble kvs)) = some v5) :
    ∃ s', update_article s i (enrich_updates kvs) = some s' ∧
      s'.nextId = s.nextId ∧
      (∀ r' ∈ s'.rows, r'.id ≠ i → r' ∈ s.rows) ∧
      (∀ r' ∈ s'.rows, r'.id = i → r'.summary = v1 ∧ r'.category = v2 ∧
        r'.sentiment = v3 ∧ r'.sentiment_score = v4 ∧ r'.bubble_indicators = v5) ∧
      (v1 ≠ SVal.null → v2 ≠ SVal.null → v3 ≠ SVal.null → v4 ≠ SVal.null →
        v5 ≠ SVal.null → ∀ r' ∈ s'.rows, r'.id = i → analysisAllSet r') := by
  refine ⟨_, enrich_update_eq s i kvs v1 v2 v3 v4 v5 h1 h2 h3 h4 h5, rfl, ?_, ?_, ?_⟩
  · intro r' hr' hne
    rcases List.mem_map.1 hr' with ⟨r, hr, rfl⟩
    by_cases h : r.id = i
    · exact absurd ((enrichRow_id i v1 v2 v3 v4 v5 r).trans h) hne
    · rw [enrichRow, if_neg h]
      exact hr
  · intro r' hr' hid
    rcases List.mem_map.1 hr' with ⟨r, hr, rfl⟩
    by_cases h : r.id = i
    · rw [enrichRow, if_pos h]
      exact ⟨rfl, rfl, rfl, rfl, rfl⟩
    · rw [enrichRow_id] at hid
      exact absurd hid h
  · intro n1 n2 n3 n4 n5 r' hr' hid
    rcases List.mem_map.1 hr' with ⟨r, hr, rfl⟩
    by_cases h : r.id = i
    · rw [enrichRow, if_pos h]
      exact ⟨n1, n2, n3, n4, n5⟩
    · rw [enrichRow_id] at hid
      exact absurd hid h

/-- Witness for the amended C1 at a full analysis result. -/
theorem claim_C1_amended_witness :
    update_article store1 1 (enrich_updates kvsW) = some { rows := [rowKW], nextId := 2 } ∧
    analysisAllSet rowKW := by
  obtain ⟨s', he, -, -, -, hall⟩ :=
    claim_C1_amended store1 1 kvsW (.text "s") (.text "AI Market") (.text "Bullish")
      (.real 5 1) (.text "[\"x\"]") rfl rfl rfl rfl rfl
  have hs' : s' = { rows := [rowKW], nextId := 2 } :=
    Option.some_inj.1 (he.symm.trans (by decide))
  subst hs'
  exact ⟨he, hall (by decide) (by decide) (by decide) (by decide) (by decide)
    rowKW (by decide) rfl⟩

/-- Counterexample for C9: an update targeting an absent id with a field map
whose key is not a column raises `sqlite3.OperationalError` (modelled
`none`) instead of succeeding silently. -/
theorem claim_C9_counterexample :
    get_article store1 99 = none ∧
    update_article store1 99 [("bogus", JsonVal.str "v")] = none :=
  ⟨rfl, rfl⟩

/-- Amended claim C9: for a field map whose keys name real (non-id) columns and
whose values sqlite3 can bind, an update targeting an id not in the store
succeeds silently, returns exactly the unchanged store, and gives the caller
no "not found" signal. -/
theorem claim_C9_amended (s : Store) (i : Nat) (updates : List (String × JsonVal))
    (hid : ∀ r ∈ s.rows, r.id ≠ i)
    (hkeys : ∀ kv ∈ updates, (colOf kv.1).isSome = true ∧ storable kv.2) :
    update_article s i updates = some s := by
  induction updates with
  | nil => rfl
  | cons kv rest ih =>
    obtain ⟨hc, hv⟩ := hkeys kv (List.mem_cons_self kv rest)
    obtain ⟨c, hc⟩ := Option.isSome_iff_exists.1 hc
    obtain ⟨sv, hsv⟩ := Option.isSome_iff_exists.1 hv
    have hstep : updateKey s i kv.1 kv.2 = some s := by
      rw [updateKey_valid s i kv.1 c kv.2 sv hc hsv]
      have hrows : s.rows.map (stepFun i c sv) = s.rows := by
        have hcong : ∀ r ∈ s.rows, stepFun i c sv r = r :=
          fun r hr => if_neg (hid r hr)
        rw [List.map_congr_left hcong]
        exact List.map_id' s.rows
      cases s
      simp only at hrows
      simp [hrows]
    simp only [update_article, List.foldlM_cons, hstep, Option.bind_eq_bind, Option.some_bind]
    exact ih (fun kv hkv => hkeys kv (List.mem_cons_of_mem _ hkv))

/-- Witness for the amended C9 at an absent id with a valid field map. -/
theorem claim_C9_amended_witness :
    get_article store1 42 = none ∧
    update_article store1 42 [("summary", JsonVal.str "x"), ("is_read", JsonVal.int 1)] =
      some store1 :=
  ⟨rfl, claim_C9_amended store1 42 _ (by decide) (by decide)⟩

theorem escapeChar_plain {c : Char} (h : plainChar c = true) : escapeChar c = [c] := by
  simp only [plainChar, decide_eq_true_eq, Bool.and_eq_true] at h
  obtain ⟨hq, hb, hlo, hhi⟩ := h
  have hn : c ≠ '\n' := by
    intro he
    rw [he] at hlo
    exact absurd hlo (by decide)
  have hr : c ≠ '\r' := by
    intro he
    rw [he] at hlo
    exact absurd hlo (by decide)
  have ht : c ≠ '\t' := by
    intro he
    rw [he] at hlo
    exact absurd hlo (by decide)
  have h8 : ¬ c.toNat = 8 := by omega
  have h12 : ¬ c.toNat = 12 := by omega
  have hrange : ¬ (c.toNat < 0x20 ∨ 0x7f ≤ c.toNat) := by omega
  simp only [escapeChar, if_neg hq, if_neg hb, if_neg hn, if_neg hr, if_neg ht,
    if_neg h8, if_neg h12, if_neg hrange]

theorem escapeList_plain : ∀ {l : List Char}, (∀ c ∈ l, plainChar c = true) →
    escapeList l = l
  | [], _ => rfl
  | c :: cs, h => by
    rw [escapeList, escapeChar_plain (h c (List.mem_cons_self c cs)),
      escapeList_plain (fun x hx => h x (List.mem_cons_of_mem c hx))]
    rfl

theorem parseStringBody_plain : ∀ {l : List Char}, (∀ c ∈ l, plainChar c = true) →
    ∀ rest : List Char, parseStringBody (l ++ '"' :: rest) = some (l, rest)
  | [], _ => by
    intro rest
    rw [List.nil_append]
    unfold parseStringBody
    rfl
  | c :: cs, h => by
    intro rest
    have hc := h c (List.mem_cons_self c cs)
    simp only [plainChar, decide_eq_true_eq, Bool.and_eq_true] at hc
    obtain ⟨hq, hb, hlo, hhi⟩ := hc
    have hctrl : ¬ c.toNat < 0x20 := by omega
    rw [List.cons_append]
    unfold parseStringBody
    rw [if_neg hq, if_neg hb, if_neg hctrl,
      parseStringBody_plain (fun x hx => h x (List.mem_cons_of_mem c hx)) rest]
    rfl

theorem parseVal_ws (f : Nat) (cs : List Char) : parseVal f (' ' :: cs) = parseVal f cs := by
  cases f <;> rfl

theorem parseItems_ws (f : Nat) (cs : List Char) :
    parseItems f (' ' :: cs) = parseItems f cs := by
  cases f with
  | zero => rfl
  | succ f =>
    unfold parseItems
    rw [parseVal_ws]

theorem parseVal_str (f : Nat) (l rest : List Char) (h : ∀ c ∈ l, plainChar c = true) :
    parseVal (f + 1) ('"' :: (l ++ '"' :: rest)) =
      some (.str (String.mk l), rest) := by
  have h0 : parseVal (f + 1) ('"' :: (l ++ '"' :: rest)) =
      (parseStringBody (l ++ '"' :: rest)).map
        (fun p => (JsonVal.str (String.mk p.1), p.2)) := by
    unfold parseVal
    rfl
  rw [h0, parseStringBody_plain h rest]
  rfl

theorem parseItems_strs :
    ∀ (l : List String) (f : Nat) (rest : List Char),
      (∀ s ∈ l, ∀ c ∈ s.data, plainChar c = true) → l ≠ [] → l.length + 1 ≤ f →
      parseItems f (dumpsArrChars (l.map .str) ++ ']' :: rest) = some (l.map .str, rest)
  | [], _, _ => by
    intro _ hne _
    exact absurd rfl hne
  | [x], f, rest => by
    intro hplain _ hf
    have hf' : 2 ≤ f := by simpa using hf
    obtain ⟨f1, rfl⟩ : ∃ f1, f = f1 + 1 := ⟨f - 1, by omega⟩
    obtain ⟨f2, rfl⟩ : ∃ f2, f1 = f2 + 1 := ⟨f1 - 1, by omega⟩
    have hx := hplain x (List.mem_singleton_self x)
    have hshape : dumpsArrChars ([x].map .str) ++ ']' :: rest =
        '"' :: (x.data ++ '"' :: (']' :: rest)) := by
      show encStrChars x ++ ']' :: rest = _
      rw [encStrChars, escapeList_plain hx]
      simp [List.append_assoc]
    rw [hshape]
    unfold parseItems
    rw [parseVal_str f2 x.data (']' :: rest) hx]
    rfl
  | x :: y :: tl, f, rest => by
    intro hplain _ hf
    have hf' : (x :: y :: tl).length + 1 ≤ f := hf
    simp only [List.length_cons] at hf'
    obtain ⟨f1, rfl⟩ : ∃ f1, f = f1 + 1 := ⟨f - 1, by omega⟩
    obtain ⟨f2, rfl⟩ : ∃ f2, f1 = f2 + 1 := ⟨f1 - 1, by omega⟩
    have hx := hplain x (List.mem_cons_self x _)
    have hshape : dumpsArrChars ((x :: y :: tl).map .str) ++ ']' :: rest =
        '"' :: (x.data ++ '"' :: (',' :: ' ' ::
          (dumpsArrChars ((y :: tl).map .str) ++ ']' :: rest))) := by
      show (dumpsChars (.str x) ++ ',' :: ' ' :: dumpsArrChars ((y :: tl).map .str))
          ++ ']' :: rest = _
      show (encStrChars x ++ ',' :: ' ' :: dumpsArrChars ((y :: tl).map .str))
          ++ ']' :: rest = _
      rw [encStrChars, escapeList_plain hx]
      simp [List.append_assoc]
    rw [hshape]
    unfold parseItems
    rw [parseVal_str f2 x.data _ hx]
    have htail : parseItems (f2 + 1)
        (' ' :: (dumpsArrChars ((y :: tl).map .str) ++ ']' :: rest)) =
        some ((y :: tl).map .str, rest) := by
      rw [parseItems_ws]
      exact parseItems_strs (y :: tl) (f2 + 1) rest
        (fun s hs => hplain s (List.mem_cons_of_mem x hs)) (by simp)
        (by simp at hf ⊢; omega)
    have hstep : Option.map (fun p => (JsonVal.str (String.mk x.data) :: p.1, p.2))
        (parseItems (f2 + 1)
          (' ' :: (dumpsArrChars (List.map JsonVal.str (y :: tl)) ++ ']' :: rest))) =
        some (List.map JsonVal.str (x :: y :: tl), rest) := by
      rw [htail]
      rfl
    exact hstep

theorem dumpsArr_len_ge : ∀ l : List String, l.length ≤ (dumpsArrChars (l.map .str)).length
  | [] => Nat.le_refl 0
  | [x] => by
    show 1 ≤ (encStrChars x).length
    simp [encStrChars]
  | x :: y :: tl => by
    have ih := dumpsArr_len_ge (y :: tl)
    show (x :: y :: tl).length ≤
      (encStrChars x ++ ',' :: ' ' :: dumpsArrChars ((y :: tl).map .str)).length
    simp only [List.length_append, List.length_cons, encStrChars, List.length_cons] at ih ⊢
    omega

theorem json_loads_dumps_strs (l : List String)
    (h : ∀ s ∈ l, ∀ c ∈ s.data, plainChar c = true) :
    json_loads (dumps (.arr (l.map .str))) = some (.arr (l.map .str)) := by
  cases l with
  | nil => rfl
  | cons x xs =>
    obtain ⟨t, ht⟩ : ∃ t, dumpsArrChars ((x :: xs).map .str) = '"' :: t := by
      cases xs
      · exact ⟨_, rfl⟩
      · exact ⟨_, rfl⟩
    have hdata : (dumps (.arr ((x :: xs).map .str))).data =
        '[' :: (dumpsArrChars ((x :: xs).map .str) ++ [']']) := rfl
    unfold json_loads
    rw [hdata, ht]
    simp only [List.cons_append]
    have hred : ∀ (n : Nat) (Z : List Char),
        parseVal (n + 1 + 1) ('[' :: '"' :: Z) =
          (parseItems (n + 1) ('"' :: Z)).map (fun p => (JsonVal.arr p.1, p.2)) := by
      intro n Z
      unfold parseVal
      rfl
    have hfuel : ('[' :: '"' :: (t ++ [']'])).length + 2 =
        ((t ++ [']']).length + 2) + 1 + 1 := by
      simp only [List.length_cons]
    rw [hfuel, hred ((t ++ [']']).length + 2)]
    have hitems : parseItems ((t ++ [']']).length + 2 + 1) ('"' :: (t ++ [']'])) =
        some ((x :: xs).map .str, []) := by
      have hin : ('"' : Char) :: (t ++ [']']) =
          dumpsArrChars ((x :: xs).map .str) ++ ']' :: [] := by
        rw [ht]
        simp
      rw [hin]
      refine parseItems_strs (x :: xs) _ [] h (by simp) ?_
      have h1 := dumpsArr_len_ge (x :: xs)
      rw [ht] at h1
      simp only [List.length_cons, List.length_append, List.length_nil] at h1 ⊢
      omega
    rw [hitems]
    rfl

/-- Counterexample for C2: after storing `["x","y"]` for bubble_indicators, the
read operation returns the JSON text `["x", "y"]` (a Python `str`), not the
two-element sequence — read operations do not deserialize. -/
theorem claim_C2_counterexample :
    update_article store1 1 [("bubble_indicators", JsonVal.arr [.str "x", .str "y"])] =
      some { rows := [rowC2], nextId := 2 } ∧
    get_article { rows := [rowC2], nextId := 2 } 1 = some rowC2 ∧
    pyReadVal rowC2.bubble_indicators = JsonVal.str "[\"x\", \"y\"]" ∧
    pyReadVal rowC2.bubble_indicators ≠ JsonVal.arr [.str "x", .str "y"] :=
  ⟨by decide, rfl, rfl, fun hcontra => JsonVal.noConfusion hcontra⟩

/-- Amended claim C2: storing a sequence for bubble_indicators serializes it to
its JSON text, and every read returns that text verbatim (a string, not a
sequence); decoding the returned text with a JSON parse does yield the same
ordered sequence, so the round-trip holds only through an explicit
client-side decode. -/
theorem claim_C2_amended (s : Store) (i : Nat) (l : List String)
    (hplain : ∀ str ∈ l, ∀ c ∈ str.data, plainChar c = true) :
    ∃ s', update_article s i [("bubble_indicators", JsonVal.arr (l.map .str))] = some s' ∧
      (∀ r' ∈ s'.rows, r'.id ≠ i → r' ∈ s.rows) ∧
      (∀ r' ∈ s'.rows, r'.id = i →
        pyReadVal r'.bubble_indicators = JsonVal.str (dumps (.arr (l.map .str)))) ∧
      json_loads (dumps (.arr (l.map .str))) = some (.arr (l.map .str)) := by
  have hstep : update_article s i [("bubble_indicators", JsonVal.arr (l.map .str))] =
      some { rows := s.rows.map (stepFun i Col.bubble_indicators
        (.text (dumps (.arr (l.map .str))))), nextId := s.nextId } := by
    show updateKey s i "bubble_indicators" (JsonVal.arr (l.map .str)) >>= (fun st =>
      some st) = _
    rw [updateKey_valid s i "bubble_indicators" Col.bubble_indicators
      (JsonVal.arr (l.map .str)) (.text (dumps (.arr (l.map .str)))) (by decide) rfl]
    rfl
  refine ⟨_, hstep, ?_, ?_, json_loads_dumps_strs l hplain⟩
  · intro r' hr' hne
    rcases List.mem_map.1 hr' with ⟨r, hr, rfl⟩
    by_cases hid : r.id = i
    · exact absurd ((setCol_id _ _ _).trans hid)
        (by simpa [stepFun, hid] using hne)
    · simpa [stepFun, hid] using hr
  · intro r' hr' hid
    rcases List.mem_map.1 hr' with ⟨r, hr, rfl⟩
    by_cases h : r.id = i
    · simp [stepFun, h, setCol, pyReadVal]
    · rw [show stepFun i Col.bubble_indicators _ r = r from if_neg h] at hid
      exact absurd hid h

/-- Witness for the amended C2 at the sequence of the spec's scenario. -/
theorem claim_C2_amended_witness :
    update_article store1 1 [("bubble_indicators", JsonVal.arr (["x", "y"].map .str))] =
      some { rows := [rowC2], nextId := 2 } ∧
    pyReadVal rowC2.bubble_indicators = JsonVal.str (dumps (.arr (["x", "y"].map .str))) ∧
    json_loads (dumps (.arr (["x", "y"].map .str))) =
      some (.arr (["x", "y"].map .str)) := by
  obtain ⟨s', he, -, hread, hrt⟩ := claim_C2_amended store1 1 ["x", "y"] (by decide)
  have hs' : s' = { rows := [rowC2], nextId := 2 } :=
    Option.some_inj.1 (he.symm.trans (by decide))
  subst hs'
  exact ⟨he, hread rowC2 (by decide) rfl, hrt⟩

/-- Counterexample for C4: the code stores whatever the classification service
returns, so a reply with sentiment "Sideways", category "Crypto" and score
5.0 produces a reachable store that violates every part of the invariant. -/
theorem claim_C4_counterexample :
    process_unanalyzed "k" true svcC4 store1 = some (1, { rows := [rowC4], nextId := 2 }, 1) ∧
    ¬ sentOk rowC4.sentiment ∧ ¬ catOk rowC4.category ∧ ¬ scoreOk rowC4.sentiment_score ∧
    rowC4.sentiment ≠ SVal.null := by
  refine ⟨by decide, by decide, by decide, by decide, by decide⟩

theorem updateKey_unstorable (st : Store) (i : Nat) (k : String) (w : JsonVal)
    (hv : toSqlite (convUpdateVal w) = none) : updateKey st i k w = none := by
  unfold updateKey
  cases hc : colOf k
  · rfl
  · rw [hv]

theorem enrich_update_inv (s : Store) (i : Nat) (kvs : List (String × JsonVal))
    (s2 : Store) (h : update_article s i (enrich_updates kvs) = some s2) :
    ∃ v1 v2 v3 v4 v5 : SVal,
      toSqlite (convUpdateVal ((jget kvs "summary").getD .null)) = some v1 ∧
      toSqlite (convUpdateVal ((jget kvs "category").getD .null)) = some v2 ∧
      toSqlite (convUpdateVal ((jget kvs "sentiment").getD .null)) = some v3 ∧
      toSqlite (convUpdateVal ((jget kvs "sentiment_score").getD .null)) = some v4 ∧
      toSqlite (convUpdateVal (enrichBubble kvs)) = some v5 ∧
      s2 = { rows := s.rows.map (enrichRow i v1 v2 v3 v4 v5), nextId := s.nextId } := by
  cases h1 : toSqlite (convUpdateVal ((jget kvs "summary").getD .null)) with
  | none =>
    have u1 : ∀ st : Store, updateKey st i "summary" ((jget kvs "summary").getD .null) = none :=
      fun st => updateKey_unstorable st i _ _ h1
    simp only [update_article, enrich_updates, List.foldlM_cons, u1,
      Option.bind_eq_bind, Option.none_bind] at h
    exact Option.noConfusion h
  | some v1 =>
  have u1 : ∀ st : Store, updateKey st i "summary" ((jget kvs "summary").getD .null) =
      some { rows := st.rows.map (stepFun i Col.summary v1), nextId := st.nextId } :=
    fun st => updateKey_valid st i "summary" Col.summary _ v1 (by decide) h1
  cases h2 : toSqlite (convUpdateVal ((jget kvs "category").getD .null)) with
  | none =>
    have u2 : ∀ st : Store, updateKey st i "category" ((jget kvs "category").getD .null) = none :=
      fun st => updateKey_unstorable st i _ _ h2
    simp only [update_article, enrich_updates, List.foldlM_cons, u1, u2,
      Option.bind_eq_bind, Option.some_bind, Option.none_bind] at h
    exact Option.noConfusion h
  | some v2 =>
  have u2 : ∀ st : Store, updateKey st i "category" ((jget kvs "category").getD .null) =
      some { rows := st.rows.map (stepFun i Col.category v2), nextId := st.nextId } :=
    fun st => updateKey_valid st i "category" Col.category _ v2 (by decide) h2
  cases h3 : toSqlite (convUpdateVal ((jget kvs "sentiment").getD .null)) with
  | none =>
    have u3 : ∀ st : Store, updateKey st i "sentiment" ((jget kvs "sentiment").getD .null) = none :=
      fun st => updateKey_unstorable st i _ _ h3
    simp only [update_article, enrich_updates, List.foldlM_cons, u1, u2, u3,
      Option.bind_eq_bind, Option.some_bind, Option.none_bind] at h
    exact Option.noConfusion h
  | some v3 =>
  have u3 : ∀ st : Store, updateKey st i "sentiment" ((jget kvs "sentiment").getD .null) =
      some { rows := st.rows.map (stepFun i Col.sentiment v3), nextId := st.nextId } :=
    fun st => updateKey_valid st i "sentiment" Col.sentiment _ v3 (by decide) h3
  cases h4 : toSqlite (convUpdateVal ((jget kvs "sentiment_score").getD .null)) with
  | none =>
    have u4 : ∀ st : Store,
        updateKey st i "sentiment_score" ((jget kvs "sentiment_score").getD .null) = none :=
      fun st => updateKey_unstorable st i _ _ h4
    simp only [update_article, enrich_updates, List.foldlM_cons, u1, u2, u3, u4,
      Option.bind_eq_bind, Option.some_bind, Option.none_bind] at h
    exact Option.noConfusion h
  | some v4 =>
  cases h5 : toSqlite (convUpdateVal (enrichBubble kvs)) with
  | none =>
    have u4 : ∀ st : Store,
        updateKey st i "sentiment_score" ((jget kvs "sentiment_score").getD .null) =
          some { rows := st.rows.map (stepFun i Col.sentiment_score v4),
                 nextId := st.nextId } :=
      fun st => updateKey_valid st i "sentiment_score" Col.sentiment_score _ v4 (by decide) h4
    have u5 : ∀ st : Store, updateKey st i "bubble_indicators" (enrichBubble kvs) = none :=
      fun st => updateKey_unstorable st i _ _ h5
    simp only [update_article, enrich_updates, List.foldlM_cons, u1, u2, u3, u4, u5,
      Option.bind_eq_bind, Option.some_bind, Option.none_bind] at h
    exact Option.noConfusion h
  | some v5 =>
    rw [enrich_update_eq s i kvs v1 v2 v3 v4 v5 h1 h2 h3 h4 h5] at h
    exact ⟨v1, v2, v3, v4, v5, rfl, rfl, rfl, rfl, rfl, (Option.some_inj.1 h).symm⟩

theorem rowOk_inserted (s : Store) (p : NewArticle) (now : String) :
    rowOk (insertedRow s p now) :=
  ⟨Or.inl rfl, Or.inl rfl, fun hne => absurd rfl hne⟩

theorem add_article_storeOk (s : Store) (p : NewArticle) (now : String)
    (hs : storeOk s) : storeOk (add_article s p now).2 := by
  unfold add_article
  split_ifs
  · exact hs
  · exact hs
  · intro r hr
    rcases List.mem_append.1 hr with h | h
    · exact hs r h
    · rw [List.mem_singleton.1 h]
      exact rowOk_inserted s p now

theorem refresh_loop_storeOk (now : String) :
    ∀ (arts : List NewArticle) (s : Store) (n : Nat),
      storeOk s → storeOk (refresh_loop s n now arts).2
  | [], _, _ => fun hs => hs
  | a :: rest, s, n => by
    intro hs
    unfold refresh_loop
    split_ifs
    · have h2 := add_article_storeOk s a now hs
      cases hadd : add_article s a now with
      | mk r s2 =>
        rw [hadd] at h2
        cases r
        · exact refresh_loop_storeOk now rest s2 n h2
        · exact refresh_loop_storeOk now rest s2 _ h2
    · exact refresh_loop_storeOk now rest s n hs

theorem mark_read_storeOk (s : Store) (i : Nat) (s' : Store)
    (hs : storeOk s) (h : mark_read s i = some s') : storeOk s' := by
  have hu : updateKey s i "is_read" (JsonVal.int 1) =
      some { rows := s.rows.map (stepFun i Col.is_read (.int 1)), nextId := s.nextId } :=
    updateKey_valid s i "is_read" Col.is_read (JsonVal.int 1) (.int 1) (by decide) rfl
  simp only [mark_read, update_article, List.foldlM_cons, List.foldlM_nil, hu,
    Option.bind_eq_bind, Option.some_bind] at h
  rw [← Option.some_inj.1 h]
  intro r' hr'
  rcases List.mem_map.1 hr' with ⟨r, hr, rfl⟩
  have hrk := hs r hr
  unfold stepFun
  split_ifs
  · exact hrk
  · exact hrk

theorem enrichRow_rowOk (i : Nat) (v1 v2 v3 v4 v5 : SVal) (r : Article)
    (hr : rowOk r) (hsent : sentOk v3) (hcat : catOk v2)
    (hscore : v3 ≠ .null → scoreOk v4) :
    rowOk (enrichRow i v1 v2 v3 v4 v5 r) := by
  unfold enrichRow
  split_ifs
  · exact ⟨hsent, hcat, hscore⟩
  · exact hr

theorem process_loop_storeOk (key : String) (hasA : Bool)
    (svc : Article → Option String) (hsvc : GoodSvc svc) :
    ∀ (arts : List Article) (s : Store) (p c n c' : Nat) (s' : Store),
      storeOk s → process_loop key hasA svc arts s p c = some (n, s', c') → storeOk s'
  | [], s, p, c, n, c', s' => by
    intro hs h
    simp only [process_loop, Option.some_inj, Prod.mk.injEq] at h
    obtain ⟨-, rfl, -⟩ := h
    exact hs
  | a :: rest, s, p, c, n, c', s' => by
    intro hs h
    cases hana : analyze_article key hasA svc a with
    | mk res cc =>
    rw [process_loop, hana] at h
    cases res with
    | none =>
      exact process_loop_storeOk key hasA svc hsvc rest s p (c + cc) n c' s' hs h
    | some v =>
      dsimp only at h
      by_cases htr : pyTruthy v = true
      · rw [if_pos htr] at h
        cases v with
        | obj kvs =>
          dsimp only at h
          cases hupd : update_article s a.id (enrich_updates kvs) with
          | none =>
            rw [hupd] at h
            exact Option.noConfusion h
          | some s2 =>
            rw [hupd] at h
            have hgood : GoodKvs kvs := by
              by_cases hkey : key = "" ∨ ¬hasA
              · rw [analyze_article, if_pos hkey] at hana
                exact Option.noConfusion (Prod.mk.injEq .. ▸ hana).1
              · rw [analyze_article, if_neg hkey] at hana
                cases hsa : svc a with
                | none =>
                  rw [hsa] at hana
                  exact Option.noConfusion (Prod.mk.injEq .. ▸ hana).1
                | some reply =>
                  rw [hsa] at hana
                  have hparse : parse_llm_response reply = some (.obj kvs) :=
                    (Prod.mk.injEq .. ▸ hana).1
                  exact hsvc a reply kvs hsa hparse
            have hs2 : storeOk s2 := by
              obtain ⟨v1, v2, v3, v4, v5, e1, e2, e3, e4, e5, rfl⟩ :=
                enrich_update_inv s a.id kvs s2 hupd
              intro r' hr'
              rcases List.mem_map.1 hr' with ⟨r, hr, rfl⟩
              exact enrichRow_rowOk a.id v1 v2 v3 v4 v5 r (hs r hr)
                (hgood.1 v3 e3) (hgood.2.1 v2 e2)
                (fun hne => hgood.2.2 v3 v4 e3 hne e4)
            exact process_loop_storeOk key hasA svc hsvc rest s2 (p + 1) (c + cc) n c' s' hs2 h
        | null => exact Option.noConfusion h
        | bool b => exact Option.noConfusion h
        | int i => exact Option.noConfusion h
        | float m e => exact Option.noConfusion h
        | str str => exact Option.noConfusion h
        | arr xs => exact Option.noConfusion h
      · rw [if_neg htr] at h
        exact process_loop_storeOk key hasA svc hsvc rest s p (c + cc) n c' s' hs h

/-- Amended claim C4: the code applies no validation of its own, so the value-set
invariant is preserved by every core operation only under the assumption
that every parsed analysis result the service supplies stays within the
spec's value sets; under that assumption ingestion, marking read, feed
refresh and enrichment all preserve it. -/
theorem claim_C4_amended (s : Store) (hs : storeOk s) :
    (∀ (p : NewArticle) (now : String), storeOk (add_article s p now).2) ∧
    (∀ (i : Nat) (s' : Store), mark_read s i = some s' → storeOk s') ∧
    (∀ (arts : List NewArticle) (now : String), storeOk (refresh_feeds s arts now).2) ∧
    (∀ (key : String) (hasA : Bool) (svc : Article → Option String), GoodSvc svc →
      ∀ (n c : Nat) (s' : Store),
        process_unanalyzed key hasA svc s = some (n, s', c) → storeOk s') :=
  ⟨fun p now => add_article_storeOk s p now hs,
   fun i s' h => mark_read_storeOk s i s' hs h,
   fun arts now => refresh_loop_storeOk now arts s 0 hs,
   fun key hasA svc hsvc n c s' h =>
     process_loop_storeOk key hasA svc hsvc _ s 0 0 n c s' hs h⟩

/-- Witness for the amended C4: a compliant (never-answering) service and a
conforming store. -/
theorem claim_C4_amended_witness :
    storeOk store1 ∧
    process_unanalyzed "k" true (fun _ => none) store1 = some (0, store1, 1) ∧
    storeOk store1 :=
  ⟨by decide, by decide,
   (claim_C4_amended store1 (by decide)).2.2.2 "k" true (fun _ => none)
     (fun _ _ _ hsa => Option.noConfusion hsa) 0 1 store1 (by decide)⟩

/-- Witness for C3: inserting a fresh url into an empty store and then
inserting it again. -/
theorem claim_C3_witness :
    countUrl emptyS "u1" = 0 ∧
    add_article emptyS payloadW "t1" = (some 1, s1W) ∧
    add_article s1W payloadW "t2" = (none, s1W) ∧
    countUrl s1W "u1" = 1 := by
  obtain ⟨s1, ha, hb, hc⟩ :=
    (claim_C3 emptyS payloadW "u1" "t1" "t2" rfl (by decide) (by decide)).2 rfl
  have hconc : add_article emptyS payloadW "t1" = (some 1, s1W) := by decide
  have hs1 : s1 = s1W := congrArg Prod.snd (ha.symm.trans hconc)
  subst hs1
  exact ⟨rfl, ha, hb, hc⟩

end News
